import Mathlib

/-!
Code Articles: a verification development for `script.js`.

The script derives display metadata from a filename, renders the article list
and the article page, and handles the copy button.  Each function of the script
is embedded below under its own name.

Conventions of the embedding.

* A JavaScript string is a list of characters (`JSString`).
* `String.prototype.toLowerCase` and `String.prototype.toUpperCase` belong to the
  platform, not to the script.  They are a parameter of the embedding
  (`CaseConversion`), fixed only by what they do to ASCII text and by the fact that
  lowercasing never produces a dot; every function of the script that calls them
  takes the parameter, and every theorem holds for each such pair of conversions.
* A JavaScript value that the script can obtain from a property read is either
  a string or an object inherited from `Object.prototype` (`JSValue`).
* The page is an explicit record of the elements the script touches; an element
  that is not on the page is `none`, and using it throws.
* `async` functions are embedded by their result: the simulated loads resolve at
  once, and the clipboard write is given by whether it resolves or rejects.
* `formatDate` is not used by any caller in the script and is not embedded.
-/

namespace CodeArticles

/-! ## Strings and values -/

/-- A JavaScript string. -/
abbrev JSString := List Char

/-- The values a property read of an object literal of strings can produce: one of the
own strings of the literal, or the object found under that name on `Object.prototype`. -/
inductive JSValue where
  | str (s : JSString)
  | inherited (name : JSString)
  deriving DecidableEq, Repr

/-- A string of ASCII characters only. -/
def IsAscii (s : JSString) : Prop := ∀ c ∈ s, c.toNat < 128

/-- The letters `A`-`Z` replaced by `a`-`z`, every other character kept. -/
def asciiLower (s : JSString) : JSString := s.map Char.toLower

/-- The letters `a`-`z` replaced by `A`-`Z`, every other character kept. -/
def asciiUpper (s : JSString) : JSString := s.map Char.toUpper

/-- The case conversions of the platform, `String.prototype.toLowerCase` and
`String.prototype.toUpperCase`.  The script calls them and does not define them, so they
are a parameter.  Three facts about them are used: on a string of ASCII characters they
convert the letters `A`-`Z` / `a`-`z` and keep every other character, and the lowercase of a
string without a dot has no dot (no character has a lowercase form that contains
`U+002E`).  Nothing is fixed about how they treat other text (accented letters, the final
sigma, `ß`, ...). -/
structure CaseConversion where
  toLowerCase : JSString → JSString
  toUpperCase : JSString → JSString
  toLowerCase_ascii : ∀ s : JSString, IsAscii s → toLowerCase s = asciiLower s
  toUpperCase_ascii : ∀ s : JSString, IsAscii s → toUpperCase s = asciiUpper s
  toLowerCase_no_dot : ∀ s : JSString, '.' ∉ s → '.' ∉ toLowerCase s

/-- One pair of conversions with the three facts: the one that converts the ASCII letters
and nothing else.  The conversions of the platform are another such pair; on ASCII text
all pairs agree. -/
def asciiCase : CaseConversion where
  toLowerCase := asciiLower
  toUpperCase := asciiUpper
  toLowerCase_ascii := fun _ _ => rfl
  toUpperCase_ascii := fun _ _ => rfl
  toLowerCase_no_dot := by
    intro s h hm
    simp only [asciiLower, List.mem_map] at hm
    obtain ⟨c, hc, e⟩ := hm
    have hdot : c = '.' := by
      by_cases hu : c.toNat ≥ 65 ∧ c.toNat ≤ 90
      · have hofNat : c = Char.ofNat c.toNat := (Char.ofNat_toNat c).symm
        obtain ⟨h1, h2⟩ := hu
        generalize c.toNat = n at hofNat h1 h2
        subst hofNat
        interval_cases n <;> exact absurd e (by decide)
      · have hsame : c.toLower = c := by
          unfold Char.toLower
          simp only [if_neg hu]
        rw [hsame] at e
        exact e
    exact h (hdot ▸ hc)

/-- `String.prototype.split` with a one-character separator: the segments between the
occurrences of the separator, in order.  The result is never empty. -/
def split (sep : Char) : JSString → List JSString
  | [] => [[]]
  | c :: cs =>
    if c = sep then [] :: split sep cs
    else
      match split sep cs with
      | seg :: rest => (c :: seg) :: rest
      | [] => [[c]]

/-- `Array.prototype.pop` read for its result: the last element, `undefined` (`none`)
on the empty array. -/
def pop (segments : List JSString) : Option JSString := segments.getLast?

/-- The names every object literal inherits from `Object.prototype`. -/
def objectPrototypeKeys : List JSString :=
  ["constructor".toList, "hasOwnProperty".toList, "isPrototypeOf".toList,
   "propertyIsEnumerable".toList, "toLocaleString".toList, "toString".toList,
   "valueOf".toList, "__proto__".toList, "__defineGetter__".toList,
   "__defineSetter__".toList, "__lookupGetter__".toList, "__lookupSetter__".toList]

/-- The property read `obj[key]` on an object literal whose own properties are `own`:
an own property first, then the prototype, else `undefined` (`none`). -/
def getProperty (own : List (JSString × JSString)) (key : JSString) : Option JSValue :=
  match own.lookup key with
  | some v => some (JSValue.str v)
  | none => if key ∈ objectPrototypeKeys then some (JSValue.inherited key) else none

/-- Truthiness of a value: the empty string is falsy, every object is truthy. -/
def truthy : JSValue → Bool
  | JSValue.str s => !s.isEmpty
  | JSValue.inherited _ => true

/-- The expression `a || b`, where `a` may be `undefined`. -/
def orElse (a : Option JSValue) (b : JSValue) : JSValue :=
  match a with
  | some v => if truthy v then v else b
  | none => b

/-! ## Configuration -/

/-- The table `SUPPORTED_LANGUAGES`. -/
def SUPPORTED_LANGUAGES : List (JSString × JSString) :=
  [("js".toList, "JavaScript".toList),
   ("py".toList, "Python".toList),
   ("html".toList, "HTML".toList),
   ("css".toList, "CSS".toList),
   ("java".toList, "Java".toList),
   ("cpp".toList, "C++".toList),
   ("c".toList, "C".toList),
   ("php".toList, "PHP".toList),
   ("rb".toList, "Ruby".toList),
   ("go".toList, "Go".toList),
   ("rs".toList, "Rust".toList),
   ("ts".toList, "TypeScript".toList),
   ("sql".toList, "SQL".toList),
   ("json".toList, "JSON".toList),
   ("xml".toList, "XML".toList),
   ("md".toList, "Markdown".toList)]

/-! ## Utility functions -/

/-- `getFileExtension`: `filename.split('.').pop().toLowerCase()`.  The array that `split`
returns always has a last element, so the `undefined` branch is never taken. -/
def getFileExtension (cc : CaseConversion) (filename : JSString) : JSString :=
  match pop (split '.' filename) with
  | some last => cc.toLowerCase last
  | none => []

/-- `getLanguageFromExtension`: `SUPPORTED_LANGUAGES[extension] || extension.toUpperCase()`. -/
def getLanguageFromExtension (cc : CaseConversion) (extension : JSString) : JSValue :=
  orElse (getProperty SUPPORTED_LANGUAGES extension)
    (JSValue.str (cc.toUpperCase extension))

/-- Does the pattern `\.[^/.]+$` match at the very start of `s`: a dot, then one or more
characters other than `/` and `.`, then the end of the string. -/
def matchesExtensionAt : JSString → Bool
  | [] => false
  | c :: rest => c == '.' && !rest.isEmpty && rest.all (fun d => d != '/' && d != '.')

/-- The call `filename.replace(/\.[^/.]+$/, "")`: the leftmost match of the pattern is
replaced by the empty string.  A match runs to the end of the string, so what is left is
the text before it; without a match the string is returned as it is. -/
def removeExtension : JSString → JSString
  | [] => []
  | c :: cs => if matchesExtensionAt (c :: cs) then [] else c :: removeExtension cs

/-- The call `.replace(/[-_]/g, ' ')`. -/
def replaceSeparators (s : JSString) : JSString :=
  s.map (fun c => if c = '-' ∨ c = '_' then ' ' else c)

/-- The class `\w` of the regular expressions of the script: `[A-Za-z0-9_]`. -/
def isWordChar (c : Char) : Bool := c.isAlphanum || c == '_'

/-- The call `.replace(/\b\w/g, l => l.toUpperCase())`: a word character is matched when
the character before it is not a word character (or there is none); `prevIsWord` tells
whether the character before the current position is a word character. -/
def upperAtBoundaries (cc : CaseConversion) (prevIsWord : Bool) : JSString → JSString
  | [] => []
  | c :: cs =>
    (if isWordChar c && !prevIsWord then cc.toUpperCase [c] else [c])
      ++ upperAtBoundaries cc (isWordChar c) cs

/-- `formatFilename`: remove the extension, replace dashes and underscores with spaces,
uppercase the first character of every word. -/
def formatFilename (cc : CaseConversion) (filename : JSString) : JSString :=
  let nameWithoutExt := removeExtension filename
  upperAtBoundaries cc false (replaceSeparators nameWithoutExt)

/-! ## Article listing -/

/-- One record of the list that `getArticlesList` returns.  `description` is `none` when
the property is absent. -/
structure Article where
  filename : JSString
  title : JSString
  language : JSString
  date : JSString
  description : Option JSString
  deriving DecidableEq, Repr

/-- `getArticlesList`: the hardcoded list. -/
def getArticlesList : List Article :=
  [{ filename := "example.js".toList,
     title := "JavaScript Array Methods".toList,
     language := "JavaScript".toList,
     date := "Jan 15, 2023".toList,
     description := some "Examples of useful JavaScript array methods".toList },
   { filename := "example.py".toList,
     title := "Python Data Processing".toList,
     language := "Python".toList,
     date := "Feb 3, 2023".toList,
     description := some "Efficient data processing with Python".toList },
   { filename := "example.html".toList,
     title := "HTML5 Semantic Elements".toList,
     language := "HTML".toList,
     date := "Mar 22, 2023".toList,
     description := some "Using semantic HTML5 elements for better structure".toList },
   { filename := "example.css".toList,
     title := "CSS Flexbox Layout".toList,
     language := "CSS".toList,
     date := "Apr 10, 2023".toList,
     description := some "Creating responsive layouts with CSS Flexbox".toList }]

/-- The text shown for a record without description. -/
def defaultDescription : JSString := "Code example and explanation".toList

/-- The expression `article.description || defaultDescription`: an absent and an empty
description are both falsy. -/
def descriptionOrDefault (description : Option JSString) : JSString :=
  match description with
  | some d => if d.isEmpty then defaultDescription else d
  | none => defaultDescription

/-- The text of the card template up to the title. -/
def cardOpen : JSString :=
  "\n            <div class=\"article-card\">\n                <div class=\"article-card-header\">\n                    <h3>".toList

/-- The text of the card template between title and description. -/
def cardAfterTitle : JSString := "</h3>\n                    <p>".toList

/-- The text of the card template between description and language. -/
def cardAfterDescription : JSString :=
  "</p>\n                </div>\n                <div class=\"article-card-meta\">\n                    <span class=\"language\">".toList

/-- The text of the card template between language and date. -/
def cardAfterLanguage : JSString :=
  "</span>\n                    <span class=\"date\">".toList

/-- The text of the card template between date and filename; it ends with the start of the
link target. -/
def cardAfterDate : JSString :=
  "</span>\n                </div>\n                <div class=\"article-card-footer\">\n                    <a href=\"article.html?file=".toList

/-- The text of the card template after the filename. -/
def cardClose : JSString :=
  "\" class=\"btn\">Read Article</a>\n                </div>\n            </div>\n        ".toList

/-- The template literal that `loadArticlesList` maps over the records. -/
def articleCard (article : Article) : JSString :=
  cardOpen ++ article.title
    ++ cardAfterTitle ++ descriptionOrDefault article.description
    ++ cardAfterDescription ++ article.language
    ++ cardAfterLanguage ++ article.date
    ++ cardAfterDate ++ article.filename
    ++ cardClose

/-- The markup written when the list is empty. -/
def noArticlesMarkup : JSString := "<p>No articles found.</p>".toList

/-- The markup written when loading the list throws. -/
def listErrorMarkup : JSString := "<p>Error loading articles. Please try again later.</p>".toList

/-- The value assigned to `innerHTML` for a list of records: the message for the empty
list, else `articles.map(card).join('')`. -/
def renderArticles (articles : List Article) : JSString :=
  if articles.length = 0 then noArticlesMarkup
  else (articles.map articleCard).flatten

/-- The body of `loadArticlesList` over a catalog provider: `container` is the `innerHTML`
of the element `articles-container` (`none` when the page has no such element), `catalog`
is what the provider gives (`none` when it throws).  The result is the new `innerHTML`. -/
def loadArticlesListFrom (catalog : Option (List Article)) (container : Option JSString) :
    Option JSString :=
  match container with
  | none => none
  | some _ =>
    match catalog with
    | some articles => some (renderArticles articles)
    | none => some listErrorMarkup

/-- `loadArticlesList`, with the catalog of `getArticlesList`. -/
def loadArticlesList (container : Option JSString) : Option JSString :=
  loadArticlesListFrom (some getArticlesList) container

/-! ## Article loading -/

/-- Lines joined by line feeds: the text of a multi-line template literal. -/
def joinLines : List String → JSString
  | [] => []
  | [line] => line.toList
  | line :: more => line.toList ++ '\n' :: joinLines more

/-- The example source text stored under `js` in `loadCodeFile`. -/
def jsExample : JSString :=
  joinLines
    ["// JavaScript Example: Array Methods",
     "const numbers = [1, 2, 3, 4, 5];",
     "",
     "// Map: Transform each element",
     "const doubled = numbers.map(n => n * 2);",
     "console.log(doubled); // [2, 4, 6, 8, 10]",
     "",
     "// Filter: Keep elements that pass a test",
     "const even = numbers.filter(n => n % 2 === 0);",
     "console.log(even); // [2, 4]",
     "",
     "// Reduce: Accumulate values",
     "const sum = numbers.reduce((acc, n) => acc + n, 0);",
     "console.log(sum); // 15",
     "",
     "// Find: Get first matching element",
     "const firstEven = numbers.find(n => n % 2 === 0);",
     "console.log(firstEven); // 2",
     "",
     "// Some: Check if any element passes test",
     "const hasEven = numbers.some(n => n % 2 === 0);",
     "console.log(hasEven); // true"]

/-- The example source text stored under `py` in `loadCodeFile`. -/
def pyExample : JSString :=
  joinLines
    ["# Python Example: Data Processing",
     "def process_data(data):",
     "    \"\"\"Process a list of data points\"\"\"",
     "    # Filter out None values",
     "    clean_data = [x for x in data if x is not None]",
     "    ",
     "    # Calculate statistics",
     "    total = sum(clean_data)",
     "    average = total / len(clean_data) if clean_data else 0",
     "    maximum = max(clean_data) if clean_data else 0",
     "    ",
     "    return \x7b",
     "        \x27total\x27: total,",
     "        \x27average\x27: average,",
     "        \x27maximum\x27: maximum,",
     "        \x27count\x27: len(clean_data)",
     "    \x7d",
     "",
     "# Example usage",
     "data = [10, 20, None, 30, 40, None, 50]",
     "result = process_data(data)",
     "print(f\"Processed \x7bresult[\x27count\x27]\x7d items\")",
     "print(f\"Total: \x7bresult[\x27total\x27]\x7d, Average: \x7bresult[\x27average\x27]:.2f\x7d\")"]

/-- The example source text stored under `html` in `loadCodeFile`. -/
def htmlExample : JSString :=
  joinLines
    ["<!DOCTYPE html>",
     "<html lang=\"en\">",
     "<head>",
     "    <meta charset=\"UTF-8\">",
     "    <meta name=\"viewport\" content=\"width=device-width, initial-scale=1.0\">",
     "    <title>Semantic HTML Example</title>",
     "</head>",
     "<body>",
     "    <header>",
     "        <h1>Website Header</h1>",
     "        <nav>",
     "            <ul>",
     "                <li><a href=\"#home\">Home</a></li>",
     "                <li><a href=\"#about\">About</a></li>",
     "                <li><a href=\"#contact\">Contact</a></li>",
     "            </ul>",
     "        </nav>",
     "    </header>",
     "    ",
     "    <main>",
     "        <article>",
     "            <header>",
     "                <h2>Article Title</h2>",
     "                <p>Published on <time datetime=\"2023-01-15\">January 15, 2023</time></p>",
     "            </header>",
     "            ",
     "            <section>",
     "                <h3>Introduction</h3>",
     "                <p>This is the introduction section of the article.</p>",
     "            </section>",
     "            ",
     "            <section>",
     "                <h3>Main Content</h3>",
     "                <p>This is the main content section with more details.</p>",
     "            </section>",
     "            ",
     "            <footer>",
     "                <p>Article footer with author information.</p>",
     "            </footer>",
     "        </article>",
     "    </main>",
     "    ",
     "    <aside>",
     "        <h3>Related Content</h3>",
     "        <p>Additional information or links.</p>",
     "    </aside>",
     "    ",
     "    <footer>",
     "        <p>&copy; 2023 Website Name. All rights reserved.</p>",
     "    </footer>",
     "</body>",
     "</html>"]

/-- The example source text stored under `css` in `loadCodeFile`. -/
def cssExample : JSString :=
  joinLines
    ["/* CSS Example: Flexbox Layout */",
     ".container \x7b",
     "    display: flex;",
     "    flex-direction: column;",
     "    min-height: 100vh;",
     "    background-color: #f5f5f5;",
     "\x7d",
     "",
     ".header \x7b",
     "    background-color: #2c3e50;",
     "    color: white;",
     "    padding: 1rem 2rem;",
     "    box-shadow: 0 2px 4px rgba(0,0,0,0.1);",
     "\x7d",
     "",
     ".main-content \x7b",
     "    display: flex;",
     "    flex: 1;",
     "    padding: 2rem;",
     "    gap: 2rem;",
     "\x7d",
     "",
     ".sidebar \x7b",
     "    flex: 0 0 250px;",
     "    background-color: white;",
     "    padding: 1.5rem;",
     "    border-radius: 8px;",
     "    box-shadow: 0 2px 4px rgba(0,0,0,0.1);",
     "\x7d",
     "",
     ".content \x7b",
     "    flex: 1;",
     "    background-color: white;",
     "    padding: 1.5rem;",
     "    border-radius: 8px;",
     "    box-shadow: 0 2px 4px rgba(0,0,0,0.1);",
     "\x7d",
     "",
     ".footer \x7b",
     "    background-color: #34495e;",
     "    color: white;",
     "    text-align: center;",
     "    padding: 1rem;",
     "\x7d",
     "",
     "/* Responsive design */",
     "@media (max-width: 768px) \x7b",
     "    .main-content \x7b",
     "        flex-direction: column;",
     "        padding: 1rem;",
     "    \x7d",
     "    ",
     "    .sidebar \x7b",
     "        flex: none;",
     "        order: 2;",
     "    \x7d",
     "\x7d"]

/-- The table `examples` of `loadCodeFile`. -/
def examples : List (JSString × JSString) :=
  [("js".toList, jsExample),
   ("py".toList, pyExample),
   ("html".toList, htmlExample),
   ("css".toList, cssExample)]

/-- The placeholder template literal of `loadCodeFile`. -/
def placeholder (filename : JSString) : JSString :=
  "// Code for ".toList ++ filename ++ " would be loaded here".toList

/-- `loadCodeFile`: `examples[extension] || placeholder`, with the extension of the
filename. -/
def loadCodeFile (cc : CaseConversion) (filename : JSString) : JSValue :=
  let extension := getFileExtension cc filename
  orElse (getProperty examples extension) (JSValue.str (placeholder filename))

/-- The element `code-content`: its class attribute and its text. -/
structure CodeElement where
  className : JSString
  textContent : JSString
  deriving DecidableEq, Repr

/-- The part of the article page that `loadArticle` reads and writes.  An element is `none`
when the page does not have it.  `loadCodeFileCalls` records the arguments of the calls of
`loadCodeFile`, `highlightRuns` counts the calls of `hljs.highlightAll` (what the external
highlighter then does to the page is not part of the script and is not modelled), and the
copy button is given by the list of the texts its click listeners are bound to. -/
structure Page where
  file : Option JSString
  articleTitle : Option JSString
  articleHeading : Option JSString
  articleLanguage : Option JSString
  codeContent : Option CodeElement
  copyButton : Option (List JSValue)
  hljs : Bool
  highlightRuns : Nat
  loadCodeFileCalls : List JSString
  deriving DecidableEq, Repr

/-- The text written when the page has no `file` parameter. -/
def noArticleMessage : JSString :=
  "No article specified. Please select an article from the homepage.".toList

/-- The text written when loading the article throws. -/
def articleErrorMessage : JSString := "Error loading article. Please try again later.".toList

/-- The string a DOM text property stores for an assigned value: a string is stored as it
is, an inherited object as the text `display` gives for it. -/
def domString (display : JSString → JSString) : JSValue → JSString
  | JSValue.str s => s
  | JSValue.inherited name => display name

/-- The `try` block of `loadArticle`.  `Except.ok` is normal completion, `Except.error` a
throw (writing to an element the page does not have); both carry the page as the
statements executed so far have left it. -/
def loadArticleTry (cc : CaseConversion) (display : JSString → JSString) (p : Page) :
    Except Page Page :=
  let noFile : Except Page Page :=
    match p.codeContent with
    | none => Except.error p
    | some el => Except.ok { p with codeContent := some { el with textContent := noArticleMessage } }
  match p.file with
  | none => noFile
  | some filename =>
    if filename.isEmpty then noFile
    else
      let title := formatFilename cc filename
      match p.articleTitle with
      | none => Except.error p
      | some _ =>
        let p1 := { p with articleTitle := some (title ++ " - Code Articles".toList) }
        match p1.articleHeading with
        | none => Except.error p1
        | some _ =>
          let p2 := { p1 with articleHeading := some title }
          let extension := getFileExtension cc filename
          let language := getLanguageFromExtension cc extension
          match p2.articleLanguage with
          | none => Except.error p2
          | some _ =>
            let p3 := { p2 with articleLanguage := some (domString display language) }
            match p3.codeContent with
            | none => Except.error p3
            | some codeElement =>
              let withClass := { codeElement with className := "language-".toList ++ extension }
              let code := loadCodeFile cc filename
              let p4 := { p3 with
                loadCodeFileCalls := p3.loadCodeFileCalls ++ [filename]
                codeContent := some { withClass with textContent := domString display code } }
              let p5 := if p4.hljs then { p4 with highlightRuns := p4.highlightRuns + 1 } else p4
              match p5.copyButton with
              | some listeners => Except.ok { p5 with copyButton := some (listeners ++ [code]) }
              | none => Except.ok p5

/-- `loadArticle`: the `try` block, and on a throw the `catch` block, which writes the
error text into `code-content` (and throws itself when the page has no such element,
leaving the page as it is). -/
def loadArticle (cc : CaseConversion) (display : JSString → JSString) (p : Page) : Page :=
  match loadArticleTry cc display p with
  | Except.ok q => q
  | Except.error q =>
    match q.codeContent with
    | some el => { q with codeContent := some { el with textContent := articleErrorMessage } }
    | none => q

/-! ## Copy to clipboard -/

/-- The copy button: its label and whether its class list contains `copied`. -/
structure Button where
  textContent : JSString
  copied : Bool
  deriving DecidableEq, Repr

/-- The state the copy handler works on: the button, the pending revert timers in the
order they were scheduled (each holds the `originalText` it captured), the text last
written to the clipboard, and the number of failure notifications raised. -/
structure CopyState where
  button : Button
  timers : List JSString
  clipboard : Option JSString
  alerts : Nat
  deriving DecidableEq, Repr

/-- The label the handler sets on success. -/
def copiedLabel : JSString := "Copied!".toList

/-- `copyCodeToClipboard`, up to scheduling the timer.  `writeSucceeds` tells whether
`navigator.clipboard.writeText` resolves; when it rejects, the `catch` block raises the
notification. -/
def copyCodeToClipboard (writeSucceeds : Bool) (code : JSString) (s : CopyState) : CopyState :=
  if writeSucceeds then
    let originalText := s.button.textContent
    { s with
      clipboard := some code
      button := { textContent := copiedLabel, copied := true }
      timers := s.timers ++ [originalText] }
  else
    { s with alerts := s.alerts + 1 }

/-- The callback given to `setTimeout`, for the timer scheduled first among the pending
ones: timers of equal delay fire in the order they were scheduled. -/
def revertTimerFires (s : CopyState) : CopyState :=
  match s.timers with
  | [] => s
  | originalText :: rest =>
    { s with
      button := { textContent := originalText, copied := false }
      timers := rest }

/-- The events of the copy button. -/
inductive CopyEvent where
  | successfulClick (code : JSString)
  | failedClick (code : JSString)
  | timerFires
  deriving DecidableEq, Repr

/-- One event applied to the state. -/
def copyStep (s : CopyState) : CopyEvent → CopyState
  | CopyEvent.successfulClick code => copyCodeToClipboard true code s
  | CopyEvent.failedClick code => copyCodeToClipboard false code s
  | CopyEvent.timerFires => revertTimerFires s

/-- A sequence of events applied in order. -/
def copyRun (s : CopyState) (events : List CopyEvent) : CopyState :=
  events.foldl copyStep s

/-! ## Words of a title, as the specification describes them -/

/-- A word with its first letter uppercased and the other letters unchanged. -/
def capitalize : JSString → JSString
  | [] => []
  | c :: cs => c.toUpper :: cs

/-- A case variant of a key: the same letters, any of them in upper case. -/
def IsCaseVariantOf (s key : JSString) : Prop := asciiLower s = key

/-- A non-empty string of ASCII letters. -/
def IsWord (w : JSString) : Prop := w ≠ [] ∧ ∀ c ∈ w, c.isAlpha = true

/-- The filename `w s1 w1 ... sn wn . ext` built from a first word, the later words each
with the separator before it, and the extension. -/
def filenameOf (w : JSString) (rest : List (Char × JSString)) (ext : JSString) : JSString :=
  w ++ (rest.map (fun p => p.1 :: p.2)).flatten ++ '.' :: ext

/-- The title that the specification gives for the words: each capitalized, joined by
single spaces. -/
def titleOf (w : JSString) (rest : List (Char × JSString)) : JSString :=
  List.intercalate [' '] ((w :: rest.map Prod.snd).map capitalize)

/-- The placeholder as the specification words it. -/
def specPlaceholder (filename : JSString) : JSString :=
  "Code for ".toList ++ filename ++ " would be loaded here".toList

/-- An article page with all four elements, empty, without copy button and highlighter,
opened with the given `file` parameter. -/
def blankPage (file : Option JSString) : Page :=
  { file := file
    articleTitle := some []
    articleHeading := some []
    articleLanguage := some []
    codeContent := some { className := [], textContent := "Loading...".toList }
    copyButton := some []
    hljs := false
    highlightRuns := 0
    loadCodeFileCalls := [] }

/-- A button labelled `Copy Code`, nothing pending. -/
def freshCopyState : CopyState :=
  { button := { textContent := "Copy Code".toList, copied := false }
    timers := []
    clipboard := none
    alerts := 0 }


/-! ## Lemmas on strings -/

/-- The facts asked of the case conversions can be met: there is such a pair. -/
theorem caseConversion_nonempty : Nonempty CaseConversion := ⟨asciiCase⟩

theorem split_ne_nil (sep : Char) (s : JSString) : split sep s ≠ [] := by
  induction s with
  | nil => simp [split]
  | cons c cs ih =>
    unfold split
    split_ifs
    · simp
    · cases h : split sep cs with
      | nil => simp
      | cons seg rest => simp

theorem split_of_not_mem (sep : Char) (s : JSString) (h : sep ∉ s) : split sep s = [s] := by
  induction s with
  | nil => simp [split]
  | cons c cs ih =>
    have hc : c ≠ sep := fun e => h (by simp [e])
    have hcs : sep ∉ cs := fun e => h (by simp [e])
    unfold split
    rw [if_neg hc, ih hcs]

theorem split_append_sep (sep : Char) (pre suf : JSString) :
    split sep (pre ++ sep :: suf) = split sep pre ++ split sep suf := by
  induction pre with
  | nil => simp [split]
  | cons c cs ih =>
    by_cases hc : c = sep
    · simp only [List.cons_append]
      rw [split, if_pos hc, ih, split, if_pos hc]
      simp
    · simp only [List.cons_append]
      rw [split, if_neg hc, ih]
      conv_rhs => rw [split, if_neg hc]
      cases h : split sep cs with
      | nil => exact absurd h (split_ne_nil sep cs)
      | cons seg rest => simp

theorem pop_split_append_sep (sep : Char) (pre suf : JSString) (h : sep ∉ suf) :
    pop (split sep (pre ++ sep :: suf)) = some suf := by
  rw [split_append_sep, split_of_not_mem sep suf h]
  simp [pop]

theorem exists_last_occurrence (sep : Char) (s : JSString) (h : sep ∈ s) :
    ∃ pre suf, s = pre ++ sep :: suf ∧ sep ∉ suf := by
  induction s with
  | nil => simp at h
  | cons c cs ih =>
    by_cases hcs : sep ∈ cs
    · obtain ⟨pre, suf, e, hs⟩ := ih hcs
      exact ⟨c :: pre, suf, by simp [e], hs⟩
    · have hc : sep = c := by
        rcases List.mem_cons.mp h with e | e
        · exact e
        · exact absurd e hcs
      exact ⟨[], cs, by simp [hc], hcs⟩

theorem split_map (sep : Char) (g : Char → Char) (hg : ∀ c, g c = sep ↔ c = sep)
    (s : JSString) : split sep (s.map g) = (split sep s).map (List.map g) := by
  induction s with
  | nil => simp [split]
  | cons c cs ih =>
    by_cases hc : c = sep
    · have hgc : g c = sep := (hg c).mpr hc
      simp only [List.map_cons]
      rw [split, if_pos hgc, ih, split, if_pos hc]
      simp
    · have hgc : g c ≠ sep := fun e => hc ((hg c).mp e)
      simp only [List.map_cons]
      rw [split, if_neg hgc, ih]
      conv_rhs => rw [split, if_neg hc]
      cases h : split sep cs with
      | nil => exact absurd h (split_ne_nil sep cs)
      | cons seg rest => simp

theorem mem_of_mem_split (sep : Char) (s : JSString) :
    ∀ seg ∈ split sep s, ∀ c ∈ seg, c ∈ s := by
  induction s with
  | nil =>
    intro seg hseg c hc
    simp only [split, List.mem_singleton] at hseg
    rw [hseg] at hc
    exact hc
  | cons d ds ih =>
    intro seg hseg c hc
    unfold split at hseg
    by_cases hd : d = sep
    · rw [if_pos hd] at hseg
      rcases List.mem_cons.mp hseg with e | e
      · rw [e] at hc
        exact absurd hc (List.not_mem_nil c)
      · exact List.mem_cons_of_mem d (ih seg e c hc)
    · rw [if_neg hd] at hseg
      cases hsp : split sep ds with
      | nil => exact absurd hsp (split_ne_nil sep ds)
      | cons first rest =>
        rw [hsp] at hseg ih
        rcases List.mem_cons.mp hseg with e | e
        · rw [e] at hc
          rcases List.mem_cons.mp hc with e2 | e2
          · rw [e2]
            exact List.mem_cons_self d ds
          · exact List.mem_cons_of_mem d (ih first (List.mem_cons_self first rest) c e2)
        · exact List.mem_cons_of_mem d (ih seg (List.mem_cons_of_mem first e) c hc)

theorem toLower_of_upper (c : Char) (h : c.toNat ≥ 65 ∧ c.toNat ≤ 90) :
    c.toLower.toNat ≥ 97 ∧ c.toLower.toNat ≤ 122 := by
  have hc : c = Char.ofNat c.toNat := (Char.ofNat_toNat c).symm
  obtain ⟨h1, h2⟩ := h
  generalize c.toNat = n at hc h1 h2
  subst hc
  interval_cases n <;> decide

theorem toLower_of_not_upper (c : Char) (h : ¬ (c.toNat ≥ 65 ∧ c.toNat ≤ 90)) :
    c.toLower = c := by
  unfold Char.toLower
  simp only [if_neg h]

theorem toLower_idem (c : Char) : c.toLower.toLower = c.toLower := by
  by_cases h : c.toNat ≥ 65 ∧ c.toNat ≤ 90
  · have h2 := toLower_of_upper c h
    exact toLower_of_not_upper _ (by omega)
  · rw [toLower_of_not_upper c h, toLower_of_not_upper c h]

theorem toLower_eq_dot (c : Char) : c.toLower = '.' ↔ c = '.' := by
  by_cases h : c.toNat ≥ 65 ∧ c.toNat ≤ 90
  · have h2 := toLower_of_upper c h
    constructor
    · intro e
      rw [e] at h2
      exact absurd h2 (by decide)
    · intro e
      rw [e] at h
      exact absurd h (by decide)
  · rw [toLower_of_not_upper c h]

theorem toLower_ascii_iff (c : Char) : c.toLower.toNat < 128 ↔ c.toNat < 128 := by
  by_cases h : c.toNat ≥ 65 ∧ c.toNat ≤ 90
  · have h2 := toLower_of_upper c h
    constructor <;> intro _ <;> omega
  · rw [toLower_of_not_upper c h]

theorem asciiLower_idem (s : JSString) : asciiLower (asciiLower s) = asciiLower s := by
  simp [asciiLower, toLower_idem]

theorem isAscii_asciiLower_iff (s : JSString) : IsAscii (asciiLower s) ↔ IsAscii s := by
  unfold IsAscii asciiLower
  constructor
  · intro h c hc
    exact (toLower_ascii_iff c).mp (h c.toLower (List.mem_map_of_mem _ hc))
  · intro h c hc
    obtain ⟨d, hd, e⟩ := List.mem_map.mp hc
    rw [← e]
    exact (toLower_ascii_iff d).mpr (h d hd)

theorem dot_mem_asciiLower_iff (s : JSString) : '.' ∈ asciiLower s ↔ '.' ∈ s := by
  unfold asciiLower
  constructor
  · intro h
    obtain ⟨d, hd, e⟩ := List.mem_map.mp h
    exact (toLower_eq_dot d).mp e ▸ hd
  · intro h
    exact List.mem_map.mpr ⟨'.', h, by decide⟩

/-! ## The extension of a filename, lemmas -/

theorem getFileExtension_append_dot (cc : CaseConversion) (pre suf : JSString)
    (h : '.' ∉ suf) : getFileExtension cc (pre ++ '.' :: suf) = cc.toLowerCase suf := by
  simp [getFileExtension, pop_split_append_sep '.' pre suf h]

theorem getFileExtension_of_not_mem (cc : CaseConversion) (f : JSString) (h : '.' ∉ f) :
    getFileExtension cc f = cc.toLowerCase f := by
  simp [getFileExtension, pop, split_of_not_mem '.' f h]

/-- On a filename of ASCII characters every pair of conversions gives the same
extension. -/
theorem getFileExtension_ascii (cc : CaseConversion) (f : JSString) (h : IsAscii f) :
    getFileExtension cc f = getFileExtension asciiCase f := by
  unfold getFileExtension
  cases hp : pop (split '.' f) with
  | none => rfl
  | some last =>
    have hmem : last ∈ split '.' f := List.mem_of_getLast?_eq_some hp
    have hlast : IsAscii last := fun c hc => h c (mem_of_mem_split '.' f last hmem c hc)
    simp only
    rw [cc.toLowerCase_ascii last hlast]
    rfl

theorem getFileExtension_asciiLower (f : JSString) :
    getFileExtension asciiCase (asciiLower f) = getFileExtension asciiCase f := by
  unfold getFileExtension pop
  rw [asciiLower, split_map '.' Char.toLower toLower_eq_dot f, List.getLast?_map]
  cases h : (split '.' f).getLast? with
  | none => simp
  | some last => simpa using asciiLower_idem last

/-! ## The language label -/

theorem lookup_eq_none_of_not_mem (l : List (JSString × JSString)) (k : JSString)
    (h : k ∉ l.map Prod.fst) : l.lookup k = none := by
  induction l with
  | nil => rfl
  | cons kv rest ih =>
    obtain ⟨a, b⟩ := kv
    simp only [List.map_cons, List.mem_cons, not_or] at h
    have hne : (k == a) = false := by simpa using h.1
    simp only [List.lookup, hne]
    exact ih h.2

theorem getLanguageFromExtension_of_property (cc : CaseConversion) (e : JSString)
    (v : JSValue) (h : getProperty SUPPORTED_LANGUAGES e = some v) (ht : truthy v = true) :
    getLanguageFromExtension cc e = v := by
  unfold getLanguageFromExtension
  rw [h]
  simp [orElse, ht]

theorem getProperty_supported :
    ∀ kv ∈ SUPPORTED_LANGUAGES,
      getProperty SUPPORTED_LANGUAGES kv.1 = some (JSValue.str kv.2)
      ∧ truthy (JSValue.str kv.2) = true ∧ '.' ∉ kv.1 ∧ IsAscii kv.1 := by
  unfold IsAscii
  decide

/-- Every key of the table is mapped to its display name. -/
theorem getLanguageFromExtension_supported (cc : CaseConversion) :
    ∀ kv ∈ SUPPORTED_LANGUAGES, getLanguageFromExtension cc kv.1 = JSValue.str kv.2 :=
  fun kv hkv =>
    getLanguageFromExtension_of_property cc kv.1 _ (getProperty_supported kv hkv).1
      (getProperty_supported kv hkv).2.1

/-- A string that is neither a key of the table nor a name on `Object.prototype` is
returned uppercased. -/
theorem getLanguageFromExtension_fallback (cc : CaseConversion) (e : JSString)
    (hkey : e ∉ SUPPORTED_LANGUAGES.map Prod.fst) (hproto : e ∉ objectPrototypeKeys) :
    getLanguageFromExtension cc e = JSValue.str (cc.toUpperCase e) := by
  unfold getLanguageFromExtension getProperty
  rw [lookup_eq_none_of_not_mem _ _ hkey, if_neg hproto]
  rfl

/-- On an argument of ASCII characters every pair of conversions gives the same label. -/
theorem getLanguageFromExtension_ascii (cc : CaseConversion) (e : JSString) (h : IsAscii e) :
    getLanguageFromExtension cc e = getLanguageFromExtension asciiCase e := by
  unfold getLanguageFromExtension
  rw [cc.toUpperCase_ascii e h]
  rfl

/-- C1, at the input that fails: `constructor` is not one of the 16 keys, and
`getLanguageFromExtension` returns the object inherited under that name from
`Object.prototype`, not the uppercased string `CONSTRUCTOR`. -/
theorem getLanguageFromExtension_constructor (cc : CaseConversion) :
    "constructor".toList ∉ SUPPORTED_LANGUAGES.map Prod.fst
    ∧ getLanguageFromExtension cc "constructor".toList
        = JSValue.inherited "constructor".toList
    ∧ getLanguageFromExtension cc "constructor".toList
        ≠ JSValue.str (cc.toUpperCase "constructor".toList)
    ∧ cc.toUpperCase "constructor".toList = "CONSTRUCTOR".toList := by
  have hv : getLanguageFromExtension cc "constructor".toList
      = JSValue.inherited "constructor".toList :=
    getLanguageFromExtension_of_property cc _ _ (by decide) rfl
  refine ⟨by decide, hv, ?_, ?_⟩
  · rw [hv]
    exact fun e => JSValue.noConfusion e
  · rw [cc.toUpperCase_ascii _ (by unfold IsAscii; decide)]
    decide

/-! ## The extension of a filename -/

/-- C3: for a filename with a dot, `getFileExtension` returns the text after the last dot
(the filename is `pre ++ "." ++ suf` with no dot in `suf`) converted to lowercase by the
platform, and the result has no dot; `example.py` gives `py`, `archive.tar.GZ` gives
`gz`. -/
theorem getFileExtension_after_last_dot (cc : CaseConversion) (f : JSString)
    (h : '.' ∈ f) :
    (∃ pre suf, f = pre ++ '.' :: suf ∧ '.' ∉ suf
        ∧ getFileExtension cc f = cc.toLowerCase suf)
    ∧ '.' ∉ getFileExtension cc f
    ∧ getFileExtension cc "example.py".toList = "py".toList
    ∧ getFileExtension cc "archive.tar.GZ".toList = "gz".toList := by
  obtain ⟨pre, suf, e, hs⟩ := exists_last_occurrence '.' f h
  have hx : getFileExtension cc f = cc.toLowerCase suf := by
    rw [e]; exact getFileExtension_append_dot cc pre suf hs
  refine ⟨⟨pre, suf, e, hs, hx⟩, ?_, ?_, ?_⟩
  · rw [hx]
    exact cc.toLowerCase_no_dot suf hs
  · rw [getFileExtension_ascii cc _ (by unfold IsAscii; decide)]
    decide
  · rw [getFileExtension_ascii cc _ (by unfold IsAscii; decide)]
    decide

theorem getFileExtension_after_last_dot_witness :
    '.' ∈ "archive.tar.GZ".toList
    ∧ ∀ cc : CaseConversion,
      ((∃ pre suf, "archive.tar.GZ".toList = pre ++ '.' :: suf ∧ '.' ∉ suf
          ∧ getFileExtension cc "archive.tar.GZ".toList = cc.toLowerCase suf)
      ∧ '.' ∉ getFileExtension cc "archive.tar.GZ".toList
      ∧ getFileExtension cc "example.py".toList = "py".toList
      ∧ getFileExtension cc "archive.tar.GZ".toList = "gz".toList) :=
  ⟨by decide, fun cc =>
    getFileExtension_after_last_dot cc "archive.tar.GZ".toList (by decide)⟩

/-- C4 as stated fails: `README` has no dot and `getFileExtension` returns `readme`, which
is not the filename unchanged. -/
theorem getFileExtension_README_changed :
    '.' ∉ "README".toList
    ∧ (∀ cc : CaseConversion, getFileExtension cc "README".toList = "readme".toList)
    ∧ (∀ cc : CaseConversion, getFileExtension cc "README".toList ≠ "README".toList) := by
  have hx : ∀ cc : CaseConversion, getFileExtension cc "README".toList = "readme".toList := by
    intro cc
    rw [getFileExtension_ascii cc _ (by unfold IsAscii; decide)]
    decide
  refine ⟨by decide, hx, fun cc => ?_⟩
  rw [hx cc]
  decide

/-- C4 amended: for a filename without a dot, `getFileExtension` returns the whole
filename converted to lowercase by the platform; `README` gives `readme`. -/
theorem getFileExtension_no_dot (cc : CaseConversion) (f : JSString) (h : '.' ∉ f) :
    getFileExtension cc f = cc.toLowerCase f
    ∧ getFileExtension cc "README".toList = "readme".toList := by
  refine ⟨getFileExtension_of_not_mem cc f h, ?_⟩
  rw [getFileExtension_ascii cc _ (by unfold IsAscii; decide)]
  decide

theorem getFileExtension_no_dot_witness :
    '.' ∉ "README".toList
    ∧ ∀ cc : CaseConversion,
      (getFileExtension cc "README".toList = cc.toLowerCase "README".toList
        ∧ getFileExtension cc "README".toList = "readme".toList) :=
  ⟨by decide, fun cc => getFileExtension_no_dot cc "README".toList (by decide)⟩

/-- C5 as stated fails: `getLanguageFromExtension` compares its argument with the keys
exactly, so `JS` gives `JS` while its lowercase `js` gives `JavaScript`. -/
theorem getLanguageFromExtension_case_sensitive :
    (∀ cc : CaseConversion, cc.toLowerCase "JS".toList = "js".toList)
    ∧ (∀ cc : CaseConversion,
        getLanguageFromExtension cc "JS".toList = JSValue.str "JS".toList)
    ∧ (∀ cc : CaseConversion,
        getLanguageFromExtension cc (cc.toLowerCase "JS".toList)
          = JSValue.str "JavaScript".toList)
    ∧ (∀ cc : CaseConversion,
        getLanguageFromExtension cc "JS".toList
          ≠ getLanguageFromExtension cc (cc.toLowerCase "JS".toList)) := by
  have hl : ∀ cc : CaseConversion, cc.toLowerCase "JS".toList = "js".toList := by
    intro cc
    rw [cc.toLowerCase_ascii _ (by unfold IsAscii; decide)]
    decide
  have h1 : ∀ cc : CaseConversion,
      getLanguageFromExtension cc "JS".toList = JSValue.str "JS".toList := by
    intro cc
    rw [getLanguageFromExtension_ascii cc _ (by unfold IsAscii; decide)]
    decide
  have h2 : ∀ cc : CaseConversion,
      getLanguageFromExtension cc (cc.toLowerCase "JS".toList)
        = JSValue.str "JavaScript".toList := by
    intro cc
    rw [hl cc]
    exact getLanguageFromExtension_supported cc ("js".toList, "JavaScript".toList)
      (by decide)
  refine ⟨hl, h1, h2, fun cc => ?_⟩
  rw [h1 cc, h2 cc]
  decide

theorem language_of_case_variant (cc : CaseConversion) (pre suf : JSString)
    (kv : JSString × JSString) (hkv : kv ∈ SUPPORTED_LANGUAGES)
    (hvar : IsCaseVariantOf suf kv.1) :
    getLanguageFromExtension cc (getFileExtension cc (pre ++ '.' :: suf))
        = JSValue.str kv.2
    ∧ getLanguageFromExtension cc (getFileExtension cc suf) = JSValue.str kv.2 := by
  obtain ⟨_, _, hdot, hasc⟩ := getProperty_supported kv hkv
  unfold IsCaseVariantOf at hvar
  have hsdot : '.' ∉ suf := fun hm =>
    hdot (hvar ▸ (dot_mem_asciiLower_iff suf).mpr hm)
  have hsasc : IsAscii suf := (isAscii_asciiLower_iff suf).mp (hvar ▸ hasc)
  have hlow : cc.toLowerCase suf = kv.1 := by
    rw [cc.toLowerCase_ascii suf hsasc, hvar]
  constructor
  · rw [getFileExtension_append_dot cc pre suf hsdot, hlow]
    exact getLanguageFromExtension_supported cc kv hkv
  · rw [getFileExtension_of_not_mem cc suf hsdot, hlow]
    exact getLanguageFromExtension_supported cc kv hkv

theorem getFileExtension_toLowerCase_ascii (cc : CaseConversion) (f : JSString)
    (h : IsAscii f) :
    getFileExtension cc (cc.toLowerCase f) = getFileExtension cc f := by
  rw [cc.toLowerCase_ascii f h,
    getFileExtension_ascii cc _ ((isAscii_asciiLower_iff f).mpr h),
    getFileExtension_asciiLower, ← getFileExtension_ascii cc f h]

/-- C5 amended: the label computed from a filename, `getLanguageFromExtension` applied to
`getFileExtension`, does not depend on the case of the extension: when the text after the
last dot of a filename (or the whole filename, when that has no dot) is a case variant of
a key, the label is the display name mapped to the key; for a filename of ASCII characters
the label is the same as for the lowercased filename; the extensions `JS`, `Py` and `CSS`
of a filename give `JavaScript`, `Python` and `CSS`. -/
theorem language_of_filename_case_insensitive (cc : CaseConversion) (pre suf : JSString)
    (kv : JSString × JSString) (hkv : kv ∈ SUPPORTED_LANGUAGES)
    (hvar : IsCaseVariantOf suf kv.1) :
    getLanguageFromExtension cc (getFileExtension cc (pre ++ '.' :: suf))
        = JSValue.str kv.2
    ∧ getLanguageFromExtension cc (getFileExtension cc suf) = JSValue.str kv.2
    ∧ (∀ f : JSString, IsAscii f →
        getLanguageFromExtension cc (getFileExtension cc f)
          = getLanguageFromExtension cc (getFileExtension cc (cc.toLowerCase f)))
    ∧ getLanguageFromExtension cc (getFileExtension cc "a.JS".toList)
        = JSValue.str "JavaScript".toList
    ∧ getLanguageFromExtension cc (getFileExtension cc "a.Py".toList)
        = JSValue.str "Python".toList
    ∧ getLanguageFromExtension cc (getFileExtension cc "a.CSS".toList)
        = JSValue.str "CSS".toList := by
  refine ⟨(language_of_case_variant cc pre suf kv hkv hvar).1,
    (language_of_case_variant cc pre suf kv hkv hvar).2, fun f hf => ?_, ?_, ?_, ?_⟩
  · rw [getFileExtension_toLowerCase_ascii cc f hf]
  · exact (language_of_case_variant cc "a".toList "JS".toList
      ("js".toList, "JavaScript".toList) (by decide) (by unfold IsCaseVariantOf; decide)).1
  · exact (language_of_case_variant cc "a".toList "Py".toList
      ("py".toList, "Python".toList) (by decide) (by unfold IsCaseVariantOf; decide)).1
  · exact (language_of_case_variant cc "a".toList "CSS".toList
      ("css".toList, "CSS".toList) (by decide) (by unfold IsCaseVariantOf; decide)).1

theorem language_of_filename_case_insensitive_witness :
    ("js".toList, "JavaScript".toList) ∈ SUPPORTED_LANGUAGES
    ∧ IsCaseVariantOf "JS".toList "js".toList
    ∧ ∀ cc : CaseConversion,
      getLanguageFromExtension cc (getFileExtension cc ("report".toList ++ '.' :: "JS".toList))
        = JSValue.str "JavaScript".toList :=
  ⟨by decide, by unfold IsCaseVariantOf; decide, fun cc =>
    (language_of_filename_case_insensitive cc "report".toList "JS".toList
      ("js".toList, "JavaScript".toList) (by decide)
      (by unfold IsCaseVariantOf; decide)).1⟩

/-! ## The title of a filename -/

theorem alpha_ne (c d : Char) (h : c.isAlpha = true) (hd : d.isAlpha = false) : c ≠ d := by
  intro e
  rw [e, hd] at h
  exact Bool.noConfusion h

theorem alpha_isWordChar (c : Char) (h : c.isAlpha = true) : isWordChar c = true := by
  simp [isWordChar, Char.isAlphanum, h]

theorem uint32_le_nat (v : UInt32) (m : Nat) (hm : m < 4294967296)
    (h : v ≤ UInt32.ofNat m) : v.toNat ≤ m :=
  UInt32.toNat_le_of_le hm h

theorem wordChar_ascii (c : Char) (h : isWordChar c = true) : c.toNat < 128 := by
  simp only [isWordChar, Char.isAlphanum, Char.isAlpha, Char.isUpper, Char.isLower,
    Char.isDigit, Bool.or_eq_true, Bool.and_eq_true, decide_eq_true_eq, beq_iff_eq] at h
  rcases h with ((⟨_, h2⟩ | ⟨_, h2⟩) | ⟨_, h2⟩) | h
  · have := uint32_le_nat c.val 90 (by decide) h2
    simp only [Char.toNat]; omega
  · have := uint32_le_nat c.val 122 (by decide) h2
    simp only [Char.toNat]; omega
  · have := uint32_le_nat c.val 57 (by decide) h2
    simp only [Char.toNat]; omega
  · rw [h]; decide

theorem upperAtBoundaries_cons (cc : CaseConversion) (b : Bool) (c : Char) (cs : JSString) :
    upperAtBoundaries cc b (c :: cs)
      = (if isWordChar c && !b then cc.toUpperCase [c] else [c])
          ++ upperAtBoundaries cc (isWordChar c) cs := rfl

/-- The conversion is applied to word characters only, which are ASCII: every pair of
conversions gives the same result. -/
theorem upperAtBoundaries_ascii (cc : CaseConversion) (b : Bool) (s : JSString) :
    upperAtBoundaries cc b s = upperAtBoundaries asciiCase b s := by
  induction s generalizing b with
  | nil => rfl
  | cons c cs ih =>
    rw [upperAtBoundaries_cons, upperAtBoundaries_cons, ih]
    by_cases hw : isWordChar c = true
    · have hasc : IsAscii [c] := by
        intro d hd
        rw [List.mem_singleton.mp hd]
        exact wordChar_ascii c hw
      rw [cc.toUpperCase_ascii [c] hasc]
      rfl
    · simp [hw]

theorem formatFilename_ascii (cc : CaseConversion) (f : JSString) :
    formatFilename cc f = formatFilename asciiCase f := by
  unfold formatFilename
  exact upperAtBoundaries_ascii cc false _

theorem removeExtension_cons (c : Char) (cs : JSString) :
    removeExtension (c :: cs)
      = if matchesExtensionAt (c :: cs) then [] else c :: removeExtension cs := rfl

theorem removeExtension_append (name ext : JSString) (hname : ∀ c ∈ name, c ≠ '.')
    (hne : ext ≠ []) (hext : ∀ d ∈ ext, d ≠ '/' ∧ d ≠ '.') :
    removeExtension (name ++ '.' :: ext) = name := by
  induction name with
  | nil =>
    have hm : matchesExtensionAt ('.' :: ext) = true := by
      cases ext with
      | nil => exact absurd rfl hne
      | cons d ds =>
        simp only [matchesExtensionAt, beq_self_eq_true, List.isEmpty_cons, Bool.not_false,
          Bool.and_self, Bool.true_and, List.all_eq_true, Bool.and_eq_true, bne_iff_ne, ne_eq]
        exact hext
    simp [removeExtension, hm]
  | cons c cs ih =>
    have hc : c ≠ '.' := hname c (by simp)
    have hm : matchesExtensionAt (c :: (cs ++ '.' :: ext)) = false := by
      simp [matchesExtensionAt, hc]
    rw [List.cons_append, removeExtension_cons, hm,
      ih (fun d hd => hname d (by simp [hd]))]
    simp

theorem replaceSeparators_append (a b : JSString) :
    replaceSeparators (a ++ b) = replaceSeparators a ++ replaceSeparators b := by
  simp [replaceSeparators]

theorem replaceSeparators_word (w : JSString) (h : ∀ c ∈ w, c.isAlpha = true) :
    replaceSeparators w = w := by
  unfold replaceSeparators
  conv_rhs => rw [← List.map_id w]
  apply List.map_congr_left
  intro c hc
  have h1 : c ≠ '-' := alpha_ne c _ (h c hc) (by decide)
  have h2 : c ≠ '_' := alpha_ne c _ (h c hc) (by decide)
  simp [h1, h2]

theorem upperAtBoundaries_inside (w t : JSString) (h : ∀ c ∈ w, c.isAlpha = true) :
    upperAtBoundaries asciiCase true (w ++ t) = w ++ upperAtBoundaries asciiCase true t := by
  induction w with
  | nil => rfl
  | cons c cs ih =>
    have hc : isWordChar c = true := alpha_isWordChar c (h c (by simp))
    rw [List.cons_append, upperAtBoundaries_cons, hc,
      ih (fun d hd => h d (by simp [hd]))]
    simp

theorem upperAtBoundaries_word (w t : JSString) (h : ∀ c ∈ w, c.isAlpha = true)
    (hne : w ≠ []) :
    upperAtBoundaries asciiCase false (w ++ t)
      = capitalize w ++ upperAtBoundaries asciiCase true t := by
  cases w with
  | nil => exact absurd rfl hne
  | cons c cs =>
    have hc : isWordChar c = true := alpha_isWordChar c (h c (by simp))
    rw [List.cons_append, upperAtBoundaries_cons, hc,
      upperAtBoundaries_inside cs t (fun d hd => h d (by simp [hd]))]
    simp [asciiCase, asciiUpper, capitalize]

theorem upperAtBoundaries_rest (rest : List (Char × JSString))
    (h : ∀ p ∈ rest, (p.1 = '-' ∨ p.1 = '_') ∧ IsWord p.2) :
    upperAtBoundaries asciiCase true
        (replaceSeparators (rest.map (fun p => p.1 :: p.2)).flatten)
      = (rest.map (fun p => ' ' :: capitalize p.2)).flatten := by
  induction rest with
  | nil => rfl
  | cons p ps ih =>
    obtain ⟨hsep, hw⟩ := h p (by simp)
    have hs : replaceSeparators [p.1] = [' '] := by
      rcases hsep with e | e <;> simp [replaceSeparators, e]
    have hcons : (p.1 :: p.2) = [p.1] ++ p.2 := rfl
    simp only [List.map_cons, List.flatten_cons]
    rw [hcons, replaceSeparators_append, replaceSeparators_append, hs,
      replaceSeparators_word p.2 hw.2]
    have hsp : isWordChar ' ' = false := by decide
    rw [List.singleton_append, List.cons_append, upperAtBoundaries_cons, hsp,
      upperAtBoundaries_word p.2 _ hw.2 hw.1, ih (fun q hq => h q (by simp [hq]))]
    simp

theorem intercalate_space (x : JSString) (xs : List JSString) :
    List.intercalate [' '] (x :: xs) = x ++ (xs.map (fun y => ' ' :: y)).flatten := by
  induction xs generalizing x with
  | nil => simp [List.intercalate]
  | cons y ys ih =>
    have h := ih y
    simp only [List.intercalate, List.intersperse, List.flatten_cons] at h ⊢
    rw [h]
    simp

theorem no_dot_in_name (w : JSString) (rest : List (Char × JSString)) (hw : IsWord w)
    (hrest : ∀ p ∈ rest, (p.1 = '-' ∨ p.1 = '_') ∧ IsWord p.2) :
    ∀ c ∈ w ++ (rest.map (fun p => p.1 :: p.2)).flatten, c ≠ '.' := by
  intro c hc
  rcases List.mem_append.mp hc with h | h
  · exact alpha_ne c _ (hw.2 c h) (by decide)
  · simp only [List.mem_flatten, List.mem_map] at h
    obtain ⟨l, ⟨p, hp, rfl⟩, hcl⟩ := h
    obtain ⟨hsep, hpw⟩ := hrest p hp
    rcases List.mem_cons.mp hcl with e | e
    · rcases hsep with e2 | e2 <;> rw [e, e2] <;> decide
    · exact alpha_ne c _ (hpw.2 c e) (by decide)

/-- C2: for a filename made of words of ASCII letters separated by single `-` or `_`,
followed by a dot and a non-empty extension without `.` and `/`, `formatFilename` returns
the words joined by single spaces, each with its first letter uppercased and the other
letters unchanged, without the dot and the extension; `my-cool_article.py` gives
`My Cool Article` and `example.js` gives `Example`. -/
theorem formatFilename_words (cc : CaseConversion) (w : JSString)
    (rest : List (Char × JSString)) (ext : JSString)
    (hw : IsWord w) (hrest : ∀ p ∈ rest, (p.1 = '-' ∨ p.1 = '_') ∧ IsWord p.2)
    (hne : ext ≠ []) (hdot : '.' ∉ ext) (hslash : '/' ∉ ext) :
    formatFilename cc (filenameOf w rest ext) = titleOf w rest
    ∧ formatFilename cc "my-cool_article.py".toList = "My Cool Article".toList
    ∧ formatFilename cc "example.js".toList = "Example".toList := by
  rw [formatFilename_ascii cc, formatFilename_ascii cc, formatFilename_ascii cc]
  refine ⟨?_, by decide, by decide⟩
  have hext : ∀ d ∈ ext, d ≠ '/' ∧ d ≠ '.' := fun d hd =>
    ⟨fun e => hslash (e ▸ hd), fun e => hdot (e ▸ hd)⟩
  unfold formatFilename filenameOf titleOf
  simp only
  rw [removeExtension_append _ ext (no_dot_in_name w rest hw hrest) hne hext,
    replaceSeparators_append, replaceSeparators_word w hw.2,
    upperAtBoundaries_word w _ hw.2 hw.1, upperAtBoundaries_rest rest hrest]
  simp only [List.map_cons, intercalate_space, List.map_map]
  rfl

theorem formatFilename_words_witness :
    IsWord "my".toList
    ∧ (∀ p ∈ [('-', "cool".toList), ('_', "article".toList)],
        (p.1 = '-' ∨ p.1 = '_') ∧ IsWord p.2)
    ∧ filenameOf "my".toList [('-', "cool".toList), ('_', "article".toList)] "py".toList
        = "my-cool_article.py".toList
    ∧ titleOf "my".toList [('-', "cool".toList), ('_', "article".toList)]
        = "My Cool Article".toList
    ∧ ∀ cc : CaseConversion,
      (formatFilename cc
          (filenameOf "my".toList [('-', "cool".toList), ('_', "article".toList)] "py".toList)
        = titleOf "my".toList [('-', "cool".toList), ('_', "article".toList)]
      ∧ formatFilename cc "my-cool_article.py".toList = "My Cool Article".toList
      ∧ formatFilename cc "example.js".toList = "Example".toList) :=
  ⟨by unfold IsWord; decide, by unfold IsWord; decide, by decide, by decide, fun cc =>
    formatFilename_words cc "my".toList [('-', "cool".toList), ('_', "article".toList)]
      "py".toList (by unfold IsWord; decide) (by unfold IsWord; decide) (by decide) (by decide)
      (by decide)⟩

/-! ## The content of an article -/

theorem orElse_jsExample (b : JSValue) :
    orElse (getProperty examples "js".toList) b = JSValue.str jsExample := rfl

theorem orElse_pyExample (b : JSValue) :
    orElse (getProperty examples "py".toList) b = JSValue.str pyExample := rfl

theorem orElse_htmlExample (b : JSValue) :
    orElse (getProperty examples "html".toList) b = JSValue.str htmlExample := rfl

theorem orElse_cssExample (b : JSValue) :
    orElse (getProperty examples "css".toList) b = JSValue.str cssExample := rfl

/-- C6 as stated fails: `notes.txt` has the unmapped extension `txt`, and `loadCodeFile`
returns the placeholder with a leading `// `, not the text of the specification. -/
theorem loadCodeFile_placeholder_has_comment_marker :
    (∀ cc : CaseConversion, getFileExtension cc "notes.txt".toList = "txt".toList)
    ∧ "txt".toList ∉ examples.map Prod.fst
    ∧ (∀ cc : CaseConversion, loadCodeFile cc "notes.txt".toList
        = JSValue.str "// Code for notes.txt would be loaded here".toList)
    ∧ (∀ cc : CaseConversion, loadCodeFile cc "notes.txt".toList
        ≠ JSValue.str (specPlaceholder "notes.txt".toList)) := by
  have hx : ∀ cc : CaseConversion, getFileExtension cc "notes.txt".toList = "txt".toList := by
    intro cc
    rw [getFileExtension_ascii cc _ (by unfold IsAscii; decide)]
    decide
  have hl : ∀ cc : CaseConversion, loadCodeFile cc "notes.txt".toList
      = JSValue.str "// Code for notes.txt would be loaded here".toList := by
    intro cc
    unfold loadCodeFile
    simp only [hx cc]
    decide
  refine ⟨hx, by decide, hl, fun cc => ?_⟩
  rw [hl cc]
  decide

/-- C6 amended: when the extension of the filename is none of `js`, `py`, `html`, `css`
(and not a name on `Object.prototype`), `loadCodeFile` returns `// Code for `, the filename
verbatim, and ` would be loaded here`; when the extension of a filename is one of the
four, it returns the example stored for that extension, whatever the rest of the filename
is. -/
theorem loadCodeFile_by_extension (cc : CaseConversion) (filename : JSString)
    (hkey : getFileExtension cc filename
      ∉ ["js".toList, "py".toList, "html".toList, "css".toList])
    (hproto : getFileExtension cc filename ∉ objectPrototypeKeys) :
    loadCodeFile cc filename
        = JSValue.str ("// Code for ".toList ++ filename ++ " would be loaded here".toList)
    ∧ (∀ g : JSString,
        getFileExtension cc g = "js".toList → loadCodeFile cc g = JSValue.str jsExample)
    ∧ (∀ g : JSString,
        getFileExtension cc g = "py".toList → loadCodeFile cc g = JSValue.str pyExample)
    ∧ (∀ g : JSString,
        getFileExtension cc g = "html".toList → loadCodeFile cc g = JSValue.str htmlExample)
    ∧ (∀ g : JSString,
        getFileExtension cc g = "css".toList → loadCodeFile cc g = JSValue.str cssExample) := by
  have hmap : examples.map Prod.fst
      = ["js".toList, "py".toList, "html".toList, "css".toList] := rfl
  refine ⟨?_, fun g hg => ?_, fun g hg => ?_, fun g hg => ?_, fun g hg => ?_⟩
  rotate_left
  · unfold loadCodeFile; simp only [hg]; exact orElse_jsExample _
  · unfold loadCodeFile; simp only [hg]; exact orElse_pyExample _
  · unfold loadCodeFile; simp only [hg]; exact orElse_htmlExample _
  · unfold loadCodeFile; simp only [hg]; exact orElse_cssExample _
  unfold loadCodeFile getProperty
  simp only
  rw [lookup_eq_none_of_not_mem _ _ (hmap ▸ hkey), if_neg hproto]
  rfl

theorem getFileExtension_notes (cc : CaseConversion) :
    getFileExtension cc "notes.txt".toList = "txt".toList := by
  rw [getFileExtension_ascii cc _ (by unfold IsAscii; decide)]
  decide

theorem loadCodeFile_by_extension_witness :
    "txt".toList ∉ ["js".toList, "py".toList, "html".toList, "css".toList]
    ∧ "txt".toList ∉ objectPrototypeKeys
    ∧ ∀ cc : CaseConversion,
      getFileExtension cc "notes.txt".toList = "txt".toList
      ∧ loadCodeFile cc "notes.txt".toList
        = JSValue.str ("// Code for ".toList ++ "notes.txt".toList
            ++ " would be loaded here".toList) :=
  ⟨by decide, by decide, fun cc => ⟨getFileExtension_notes cc,
    (loadCodeFile_by_extension cc "notes.txt".toList
      (by rw [getFileExtension_notes cc]; decide)
      (by rw [getFileExtension_notes cc]; decide)).1⟩⟩

/-! ## The article list -/

theorem cardOpen_eq : cardOpen
    = "\n            <div class=\"article-card\">".toList
      ++ ("\n                <div class=\"article-card-header\">\n                    ".toList
      ++ "<h3>".toList) := by
  decide

theorem cardAfterTitle_eq : cardAfterTitle
    = "</h3>".toList ++ ("\n                    ".toList ++ "<p>".toList) := by
  decide

theorem cardAfterDescription_eq : cardAfterDescription
    = "</p>".toList
      ++ ("\n                </div>\n                <div class=\"article-card-meta\">\n                    ".toList
      ++ "<span class=\"language\">".toList) := by
  decide

theorem cardAfterLanguage_eq : cardAfterLanguage
    = "</span>".toList ++ ("\n                    ".toList ++ "<span class=\"date\">".toList) := by
  decide

theorem cardAfterDate_eq : cardAfterDate
    = "</span>".toList
      ++ ("\n                </div>\n                <div class=\"article-card-footer\">\n                    ".toList
      ++ "<a href=\"article.html?file=".toList) := by
  decide

theorem cardClose_eq : cardClose
    = "\" class=\"btn\">".toList
      ++ "Read Article</a>\n                </div>\n            </div>\n        ".toList := by
  decide

theorem infix_skip {m front back : JSString} (h : m <:+: back) : m <:+: front ++ back :=
  h.trans (List.suffix_append front back).isInfix

theorem infix_here {x y z back : JSString} : x ++ (y ++ z) <:+: x ++ (y ++ (z ++ back)) :=
  ⟨[], back, by simp⟩

theorem descriptionOrDefault_cases (d : JSString) :
    descriptionOrDefault none = defaultDescription
    ∧ descriptionOrDefault (some []) = defaultDescription
    ∧ (d ≠ [] → descriptionOrDefault (some d) = d) := by
  refine ⟨rfl, rfl, fun h => ?_⟩
  cases d with
  | nil => exact absurd rfl h
  | cons c cs => rfl

/-- C7: for a catalog of `N ≥ 1` records, `loadArticlesList` writes the concatenation of
the `N` cards of the records in catalog order; the card of a record starts with the
`article-card` block tag and contains the title, the description (or the default text
`Code example and explanation` when the description is absent or empty), the language and
the date verbatim, each in its element, and a link whose target is `article.html?file=`
followed by the filename; for the empty catalog it writes `<p>No articles found.</p>`,
which contains no card. -/
theorem loadArticlesList_cards (catalog : List Article) (old : JSString)
    (h : catalog ≠ []) :
    loadArticlesListFrom (some catalog) (some old) = some (catalog.map articleCard).flatten
    ∧ (catalog.map articleCard).length = catalog.length
    ∧ (∀ a : Article,
        "\n            <div class=\"article-card\">".toList <+: articleCard a
        ∧ "<h3>".toList ++ a.title ++ "</h3>".toList <:+: articleCard a
        ∧ "<p>".toList ++ descriptionOrDefault a.description ++ "</p>".toList
            <:+: articleCard a
        ∧ "<span class=\"language\">".toList ++ a.language ++ "</span>".toList
            <:+: articleCard a
        ∧ "<span class=\"date\">".toList ++ a.date ++ "</span>".toList <:+: articleCard a
        ∧ "<a href=\"article.html?file=".toList ++ a.filename ++ "\" class=\"btn\">".toList
            <:+: articleCard a)
    ∧ descriptionOrDefault none = "Code example and explanation".toList
    ∧ descriptionOrDefault (some []) = "Code example and explanation".toList
    ∧ (∀ d : JSString, d ≠ [] → descriptionOrDefault (some d) = d)
    ∧ loadArticlesListFrom (some []) (some old) = some "<p>No articles found.</p>".toList
    ∧ ¬ ("article-card".toList <:+: "<p>No articles found.</p>".toList) := by
  refine ⟨?_, by simp, fun a => ⟨?_, ?_, ?_, ?_, ?_, ?_⟩, rfl, rfl,
    fun d hd => (descriptionOrDefault_cases d).2.2 hd, rfl, by decide⟩
  · cases catalog with
    | nil => exact absurd rfl h
    | cons a as => rfl
  · unfold articleCard
    rw [cardOpen_eq]
    simp only [List.append_assoc]
    exact List.prefix_append _ _
  · unfold articleCard
    rw [cardOpen_eq, cardAfterTitle_eq]
    simp only [List.append_assoc]
    exact infix_skip (infix_skip infix_here)
  · unfold articleCard
    rw [cardAfterTitle_eq, cardAfterDescription_eq]
    simp only [List.append_assoc]
    exact infix_skip (infix_skip (infix_skip (infix_skip infix_here)))
  · unfold articleCard
    rw [cardAfterDescription_eq, cardAfterLanguage_eq]
    simp only [List.append_assoc]
    exact infix_skip (infix_skip (infix_skip (infix_skip (infix_skip
      (infix_skip infix_here)))))
  · unfold articleCard
    rw [cardAfterLanguage_eq, cardAfterDate_eq]
    simp only [List.append_assoc]
    exact infix_skip (infix_skip (infix_skip (infix_skip (infix_skip (infix_skip
      (infix_skip (infix_skip infix_here)))))))
  · unfold articleCard
    rw [cardAfterDate_eq, cardClose_eq]
    simp only [List.append_assoc]
    exact infix_skip (infix_skip (infix_skip (infix_skip (infix_skip (infix_skip
      (infix_skip (infix_skip (infix_skip (infix_skip infix_here)))))))))

theorem loadArticlesList_cards_witness :
    getArticlesList ≠ []
    ∧ loadArticlesList (some []) = some (getArticlesList.map articleCard).flatten
    ∧ (getArticlesList.map articleCard).length = 4 :=
  ⟨by decide, (loadArticlesList_cards getArticlesList [] (by decide)).1,
    (loadArticlesList_cards getArticlesList [] (by decide)).2.1⟩

/-! ## The article page -/

theorem getFileExtension_example_css (cc : CaseConversion) :
    getFileExtension cc "example.css".toList = "css".toList := by
  rw [getFileExtension_ascii cc _ (by unfold IsAscii; decide)]
  decide

theorem loadCodeFile_example_css (cc : CaseConversion) :
    loadCodeFile cc "example.css".toList = JSValue.str cssExample := by
  have hx := getFileExtension_example_css cc
  unfold loadCodeFile
  simp only [hx]
  exact orElse_cssExample _

/-- C8: for a non-empty `file` parameter `f` on a page that has the title, heading,
language and code elements (so no step throws), `loadArticle` leaves the code element with
class `language-` followed by `getFileExtension f` and with the text of `loadCodeFile f`
(a string is stored as it is), the heading `formatFilename f`, the page title
`formatFilename f` followed by ` - Code Articles`, and the language field
`getLanguageFromExtension (getFileExtension f)`; for `example.css` the class is
`language-css` and the text is the CSS example. -/
theorem loadArticle_renders (cc : CaseConversion) (display : JSString → JSString) (p : Page)
    (f t h l : JSString) (el : CodeElement) (hf : p.file = some f) (hne : f ≠ [])
    (ht : p.articleTitle = some t) (hh : p.articleHeading = some h)
    (hl : p.articleLanguage = some l) (hc : p.codeContent = some el) :
    (loadArticle cc display p).codeContent
        = some { className := "language-".toList ++ getFileExtension cc f
                 textContent := domString display (loadCodeFile cc f) }
    ∧ (∀ code : JSString, loadCodeFile cc f = JSValue.str code →
        (loadArticle cc display p).codeContent
          = some { className := "language-".toList ++ getFileExtension cc f
                   textContent := code })
    ∧ (loadArticle cc display p).articleHeading = some (formatFilename cc f)
    ∧ (loadArticle cc display p).articleTitle
        = some (formatFilename cc f ++ " - Code Articles".toList)
    ∧ (loadArticle cc display p).articleLanguage
        = some (domString display (getLanguageFromExtension cc (getFileExtension cc f)))
    ∧ "language-".toList ++ getFileExtension cc "example.css".toList = "language-css".toList
    ∧ loadCodeFile cc "example.css".toList = JSValue.str cssExample := by
  have hemp : f.isEmpty = false := by
    cases f with
    | nil => exact absurd rfl hne
    | cons c cs => rfl
  have hcode : (loadArticle cc display p).codeContent
      = some { className := "language-".toList ++ getFileExtension cc f
               textContent := domString display (loadCodeFile cc f) } := by
    simp only [loadArticle, loadArticleTry, hf, hemp, ht, hh, hl, hc]
    cases p.hljs <;> cases p.copyButton <;> rfl
  refine ⟨hcode, ?_, ?_, ?_, ?_, ?_, loadCodeFile_example_css cc⟩
  · intro code hcd
    rw [hcode, hcd]
    rfl
  · simp only [loadArticle, loadArticleTry, hf, hemp, ht, hh, hl, hc]
    cases p.hljs <;> cases p.copyButton <;> rfl
  · simp only [loadArticle, loadArticleTry, hf, hemp, ht, hh, hl, hc]
    cases p.hljs <;> cases p.copyButton <;> rfl
  · simp only [loadArticle, loadArticleTry, hf, hemp, ht, hh, hl, hc]
    cases p.hljs <;> cases p.copyButton <;> rfl
  · rw [getFileExtension_example_css cc]
    decide

theorem loadArticle_renders_witness :
    (blankPage (some "example.css".toList)).file = some "example.css".toList
    ∧ ∀ cc : CaseConversion,
      (loadArticle cc id (blankPage (some "example.css".toList))).codeContent
          = some { className := "language-css".toList, textContent := cssExample }
      ∧ (loadArticle cc id (blankPage (some "example.css".toList))).articleHeading
          = some "Example".toList
      ∧ (loadArticle cc id (blankPage (some "example.css".toList))).articleTitle
          = some "Example - Code Articles".toList
      ∧ (loadArticle cc id (blankPage (some "example.css".toList))).articleLanguage
          = some "CSS".toList :=
  ⟨rfl, fun cc =>
    have w := loadArticle_renders cc id (blankPage (some "example.css".toList))
      "example.css".toList [] [] [] { className := [], textContent := "Loading...".toList }
      rfl (by decide) rfl rfl rfl rfl
    have hfmt : formatFilename cc "example.css".toList = "Example".toList := by
      rw [formatFilename_ascii cc]; decide
    have hlang : getLanguageFromExtension cc (getFileExtension cc "example.css".toList)
        = JSValue.str "CSS".toList := by
      rw [getFileExtension_example_css cc]
      exact getLanguageFromExtension_supported cc ("css".toList, "CSS".toList) (by decide)
    ⟨(w.2.1 cssExample w.2.2.2.2.2.2).trans (by rw [w.2.2.2.2.2.1]),
      w.2.2.1.trans (by rw [hfmt]),
      w.2.2.2.1.trans (by rw [hfmt]; decide),
      w.2.2.2.2.1.trans (by rw [hlang]; rfl)⟩⟩

/-- C9: without a `file` parameter (absent or empty), on a page with the code element,
`loadArticle` sets the text of the code element to `No article specified. Please select an
article from the homepage.` and changes nothing else: page title, heading, language field
and the class of the code element stay as they were, `loadCodeFile` is not called, and no
listener is added to the copy button. -/
theorem loadArticle_no_file (cc : CaseConversion) (display : JSString → JSString) (p : Page)
    (el : CodeElement)
    (hfile : p.file = none ∨ p.file = some []) (hc : p.codeContent = some el) :
    loadArticle cc display p
        = { p with codeContent := some { el with textContent := noArticleMessage } }
    ∧ noArticleMessage
        = "No article specified. Please select an article from the homepage.".toList
    ∧ (loadArticle cc display p).codeContent
        = some { className := el.className, textContent := noArticleMessage }
    ∧ (loadArticle cc display p).articleTitle = p.articleTitle
    ∧ (loadArticle cc display p).articleHeading = p.articleHeading
    ∧ (loadArticle cc display p).articleLanguage = p.articleLanguage
    ∧ (loadArticle cc display p).loadCodeFileCalls = p.loadCodeFileCalls
    ∧ (loadArticle cc display p).copyButton = p.copyButton
    ∧ (loadArticle cc display p).highlightRuns = p.highlightRuns := by
  have hq : loadArticle cc display p
      = { p with codeContent := some { el with textContent := noArticleMessage } } := by
    rcases hfile with e | e <;> simp [loadArticle, loadArticleTry, e, hc]
  refine ⟨hq, rfl, ?_, ?_, ?_, ?_, ?_, ?_, ?_⟩ <;> rw [hq]

theorem loadArticle_no_file_witness :
    (blankPage none).file = none
    ∧ ∀ cc : CaseConversion,
      (loadArticle cc id (blankPage none)
          = { blankPage none with
              codeContent := some { className := [], textContent := noArticleMessage } })
      ∧ (loadArticle cc id (blankPage (some []))).loadCodeFileCalls = []
      ∧ (loadArticle cc id (blankPage (some []))).copyButton = some [] :=
  ⟨rfl, fun cc =>
    ⟨(loadArticle_no_file cc id (blankPage none)
        { className := [], textContent := "Loading...".toList } (Or.inl rfl) rfl).1,
      (loadArticle_no_file cc id (blankPage (some []))
        { className := [], textContent := "Loading...".toList }
        (Or.inr rfl) rfl).2.2.2.2.2.2.1,
      (loadArticle_no_file cc id (blankPage (some []))
        { className := [], textContent := "Loading...".toList }
        (Or.inr rfl) rfl).2.2.2.2.2.2.2.1⟩⟩

/-! ## The copy button -/

/-- A successful click sets the label to `Copied!` at once and schedules one timer that
holds the label the button had. -/
theorem copy_success_sets_label (code : JSString) (s : CopyState) :
    (copyStep s (CopyEvent.successfulClick code)).button.textContent = "Copied!".toList
    ∧ (copyStep s (CopyEvent.successfulClick code)).timers
        = s.timers ++ [s.button.textContent] :=
  ⟨rfl, rfl⟩

/-- A failed click leaves the button as it is and raises one notification. -/
theorem copy_failure_keeps_label (code : JSString) (s : CopyState) :
    (copyStep s (CopyEvent.failedClick code)).button = s.button
    ∧ (copyStep s (CopyEvent.failedClick code)).alerts = s.alerts + 1 :=
  ⟨rfl, rfl⟩

/-- One successful click with nothing pending, then its timer: the label is back. -/
theorem copy_single_click_reverts (code : JSString) (s : CopyState) (h : s.timers = []) :
    (copyRun s [CopyEvent.successfulClick code, CopyEvent.timerFires]).button.textContent
      = s.button.textContent := by
  simp [copyRun, copyStep, copyCodeToClipboard, revertTimerFires, h]

theorem copyRun_append (s : CopyState) (a b : List CopyEvent) :
    copyRun s (a ++ b) = copyRun (copyRun s a) b := by
  simp [copyRun, List.foldl_append]

theorem copyRun_clicks_when_copied (codes : List JSString) (s : CopyState)
    (h : s.button.textContent = copiedLabel) :
    (copyRun s (codes.map CopyEvent.successfulClick)).button.textContent = copiedLabel
    ∧ (copyRun s (codes.map CopyEvent.successfulClick)).timers
        = s.timers ++ codes.map (fun _ => copiedLabel) := by
  induction codes generalizing s with
  | nil => simp [copyRun, h]
  | cons c cs ih =>
    have h1 := ih (copyStep s (CopyEvent.successfulClick c)) rfl
    simp only [List.map_cons, copyRun, List.foldl_cons] at h1 ⊢
    refine ⟨h1.1, ?_⟩
    rw [h1.2]
    simp [copyStep, copyCodeToClipboard, h]

theorem copyRun_all_timers (pending : List JSString) (s : CopyState)
    (h : s.timers = pending) (last : JSString) (hl : pending.getLast? = some last) :
    (copyRun s (List.replicate pending.length CopyEvent.timerFires)).button.textContent = last
    ∧ (copyRun s (List.replicate pending.length CopyEvent.timerFires)).timers = [] := by
  induction pending generalizing s with
  | nil => simp at hl
  | cons t ts ih =>
    cases ts with
    | nil =>
      simp only [List.getLast?_singleton, Option.some.injEq] at hl
      simp [copyRun, copyStep, revertTimerFires, h, hl]
    | cons u us =>
      have hl2 : (u :: us).getLast? = some last := by
        rw [← hl, List.getLast?_cons_cons]
      have h1 := ih (copyStep s CopyEvent.timerFires)
        (by simp [copyStep, revertTimerFires, h]) hl2
      simpa [copyRun, List.replicate_succ] using h1

theorem getLast_constant (x : JSString) (codes : List JSString) :
    (x :: codes.map (fun _ => x)).getLast? = some x := by
  induction codes with
  | nil => rfl
  | cons d ds ih => simpa [List.getLast?_cons_cons] using ih

/-- Overlapping clicks in general: with nothing pending, two or more successful clicks in a
row followed by the firing of all their timers leave the label `Copied!`. -/
theorem copy_overlapping_clicks_stay_copied (s : CopyState) (h : s.timers = [])
    (c1 c2 : JSString) (codes : List JSString) :
    (copyRun s ((c1 :: c2 :: codes).map CopyEvent.successfulClick
        ++ List.replicate (codes.length + 2) CopyEvent.timerFires)).button.textContent
      = copiedLabel := by
  rw [copyRun_append]
  have hc := copyRun_clicks_when_copied (c2 :: codes)
    (copyStep s (CopyEvent.successfulClick c1)) rfl
  have ht : (copyRun s ((c1 :: c2 :: codes).map CopyEvent.successfulClick)).timers
      = s.button.textContent :: copiedLabel :: codes.map (fun _ => copiedLabel) := by
    have := hc.2
    simp only [List.map_cons, copyRun, List.foldl_cons] at this ⊢
    rw [this]
    simp [copyStep, copyCodeToClipboard, h]
  have hlast : (s.button.textContent :: copiedLabel :: codes.map (fun _ => copiedLabel)).getLast?
      = some copiedLabel := by
    rw [List.getLast?_cons_cons]
    exact getLast_constant copiedLabel codes
  have := (copyRun_all_timers _ _ ht copiedLabel hlast).1
  simpa using this

/-- C10, at the input that fails: two successful clicks on a button labelled `Copy Code`,
the second before the timer of the first has fired, then both timers fire.  No timer is
pending any more and the label is `Copied!`, not the label before the first click. -/
theorem copy_two_clicks_stays_copied :
    (copyRun freshCopyState
        [CopyEvent.successfulClick "x".toList, CopyEvent.successfulClick "x".toList,
         CopyEvent.timerFires, CopyEvent.timerFires]).timers = []
    ∧ (copyRun freshCopyState
        [CopyEvent.successfulClick "x".toList, CopyEvent.successfulClick "x".toList,
         CopyEvent.timerFires, CopyEvent.timerFires]).button.textContent = "Copied!".toList
    ∧ (copyRun freshCopyState
        [CopyEvent.successfulClick "x".toList, CopyEvent.successfulClick "x".toList,
         CopyEvent.timerFires, CopyEvent.timerFires]).button.textContent
        ≠ freshCopyState.button.textContent := by
  decide

end CodeArticles
